import Mathlib

/-!
Verification development for the `RustPersonalProjects` repository.

Two programs are modelled:

* `fx_option_pricing_fractional_pdes` — a time-fractional Black–Scholes
  (Garman–Kohlhagen) solver, `solve_fx_tfbs_final_stable` in
  `src/fractional_pde.rs`, together with its CLI wrapper `main` in
  `src/main.rs`.
* `kalman_filter_fx_spot` — a CSV reader and a Kalman-filter driver in
  `src/main.rs`.

The embedding is a shallow one over the real numbers: every `f64` value is
modelled by `ℝ`, `usize` by `ℕ` (all index arithmetic in the source stays
inside bounds for `m ≥ 2`, the one exception being modelled explicitly, see
`solve_fx_tfbs_final_stable` below).  The two external crates are modelled as
parameters, exactly at their call interfaces:

* `faer`'s `partial_piv_lu` / `solve` pair is an abstract pair
  `factorize : (ℕ → ℕ → ℝ) → F` and `fsolve : F → (ℕ → ℝ) → (ℕ → ℝ)`;
  the repository's code never inspects the factorization, it only threads it
  into `solve`, so every theorem below holds for an arbitrary implementation.
* `statrs`'s `gamma` is the real Gamma function `Real.Gamma`.
* the `kalman_filters` crate's builder/predict/update/state/covariance
  interface is an abstract structure `KalmanFx.KFApi`.

Mutable state is embedded by explicit state passing: the solution matrix is a
total function `ℕ → ℕ → ℝ` and the time loop is the recursion `vmat`, where
`vmat j` is the matrix after `j` completed steps of the `for step in 1..=n`
loop.  Imperative accumulation loops become `List.foldl` over the very range
the Rust `for` iterates.
-/

noncomputable section

namespace FractionalPde

/-- Rust `struct FxOptionParams` (fractional_pde.rs, lines 4–7). -/
structure FxOptionParams where
  s_max : ℝ
  k : ℝ
  t : ℝ
  rd : ℝ
  rf : ℝ
  sigma : ℝ
  alpha : ℝ

variable (p : FxOptionParams) (m n : ℕ)

/-- `let x_min = (params.k / 10.0).ln();` -/
def x_min : ℝ := Real.log (p.k / 10)

/-- `let x_max = params.s_max.ln();` -/
def x_max : ℝ := Real.log p.s_max

/-- `let dx = (x_max - x_min) / m as f64;` -/
def dx : ℝ := (x_max p - x_min p) / m

/-- `let dt = params.t / n as f64;` -/
def dt : ℝ := p.t / n

/-- The `i`-th element produced by
`(0..=m).map(|i| (x_min + i as f64 * dx).exp())`. -/
def s_grid_fun (i : ℕ) : ℝ := Real.exp (x_min p + i * dx p m)

/-- `let s_grid: Vec<f64> = (0..=m).map(...).collect();` -/
def s_grid : List ℝ := (List.range (m + 1)).map (s_grid_fun p m)

/-- `let sigma2 = params.sigma.powi(2);` -/
def sigma2 : ℝ := p.sigma ^ 2

/-- `let drift = (params.rd - params.rf) - 0.5 * sigma2;` -/
def drift : ℝ := (p.rd - p.rf) - 0.5 * sigma2 p

/-- `let d = dt.powf(params.alpha) * gamma(2.0 - params.alpha);`
(`gamma` is `statrs`'s real Gamma function, modelled by `Real.Gamma`). -/
def d : ℝ := dt p n ^ p.alpha * Real.Gamma (2 - p.alpha)

/-- `let b: Vec<f64> = (0..=n).map(|j| (j+1)^(1-alpha) - j^(1-alpha))` —
the `j`-th history weight. -/
def b (j : ℕ) : ℝ := ((j : ℝ) + 1) ^ (1 - p.alpha) - (j : ℝ) ^ (1 - p.alpha)

/-- The terminal payoff written into column 0:
`v[(i, 0)] = (s_grid[i] - params.k).max(0.0)`. -/
def payoff (i : ℕ) : ℝ := max (s_grid_fun p m i - p.k) 0

/-- The solution matrix right after
`let mut v = Mat::<f64>::zeros(m + 1, n + 1); for i in 0..=m { v[(i, 0)] = ... }`:
column 0 holds the payoff on rows `0..=m`, every other cell is `0`. -/
def v0 : ℕ → ℕ → ℝ := fun i st => if st = 0 ∧ i ≤ m then payoff p m i else 0

/-- `let alpha_coeff = d * (sigma2 / (2.0 * dx.powi(2)));` -/
def alpha_coeff : ℝ := d p n * (sigma2 p / (2 * dx p m ^ 2))

/-- `let beta_coeff = d * (drift / (2.0 * dx));` -/
def beta_coeff : ℝ := d p n * (drift p / (2 * dx p m))

/-- `let gamma_coeff = d * params.rd;` -/
def gamma_coeff : ℝ := d p n * p.rd

/-- `let main_diag = 1.0 + 2.0 * alpha_coeff + gamma_coeff;` -/
def main_diag : ℝ := 1 + 2 * alpha_coeff p m n + gamma_coeff p n

/-- `let upper_val = -(alpha_coeff + beta_coeff);` -/
def upper_val : ℝ := -(alpha_coeff p m n + beta_coeff p m n)

/-- `let lower_val = -(alpha_coeff - beta_coeff);` -/
def lower_val : ℝ := -(alpha_coeff p m n - beta_coeff p m n)

/-- One point write `mat[(r, c)] = x` on a matrix modelled as a total
function. -/
def mwrite (A : ℕ → ℕ → ℝ) (r c : ℕ) (x : ℝ) : ℕ → ℕ → ℝ :=
  fun r' c' => if r' = r ∧ c' = c then x else A r' c'

/-- One iteration (row `i`) of the assembly loop
`for i in 0..(m - 1) { a_matrix[(i, i)] = main_diag;
 if i > 0 { a_matrix[(i, i - 1)] = lower_val; }
 if i < m - 2 { a_matrix[(i, i + 1)] = upper_val; } }`. -/
def assemble_step (A : ℕ → ℕ → ℝ) (i : ℕ) : ℕ → ℕ → ℝ :=
  let A1 := mwrite A i i (main_diag p m n)
  let A2 := if 0 < i then mwrite A1 i (i - 1) (lower_val p m n) else A1
  if i < m - 2 then mwrite A2 i (i + 1) (upper_val p m n) else A2

/-- `let mut a_matrix = Mat::<f64>::zeros(m - 1, m - 1);` followed by the
assembly loop over `0..(m - 1)`. -/
def a_matrix : ℕ → ℕ → ℝ :=
  (List.range (m - 1)).foldl (assemble_step p m n) (fun _ _ => 0)

/-- Closed form of the row contents the assembly loop writes, used to state
what `a_matrix` holds. -/
def tri_entry (r c : ℕ) : ℝ :=
  if c = r then main_diag p m n
  else if 0 < r ∧ c = r - 1 then lower_val p m n
  else if r < m - 2 ∧ c = r + 1 then upper_val p m n
  else 0

variable {F : Type} (factorize : (ℕ → ℕ → ℝ) → F) (fsolve : F → (ℕ → ℝ) → (ℕ → ℝ))

/-- `let lu = a_matrix.partial_piv_lu();` — the single factorization computed
before the time loop. -/
def lu : F := factorize (a_matrix p m n)

/-- `let v_upper = params.s_max * (-params.rf * t_curr).exp()
                 - params.k * (-params.rd * t_curr).exp();`
with `t_curr = step as f64 * dt`. -/
def v_upper_at (st : ℕ) : ℝ :=
  p.s_max * Real.exp (-p.rf * (st * dt p n)) - p.k * Real.exp (-p.rd * (st * dt p n))

/-- The inner history accumulation at node `i` of step `st`:
`let mut history = 0.0;
 if step > 1 { for k in 1..step { history += (b[k-1] - b[k]) * v[(i, step-k)]; } }
 history += b[step - 1] * v[(i, 0)];`
(the `if step > 1` guard is subsumed: `List.range' 1 (st - 1)` is the exact
iteration range of `1..step`, empty when `step ≤ 1`). -/
def history_loop (v : ℕ → ℕ → ℝ) (st i : ℕ) : ℝ :=
  (List.range' 1 (st - 1)).foldl (fun acc k => acc + (b p (k - 1) - b p k) * v i (st - k)) 0
    + b p (st - 1) * v i 0

/-- Modelled from the spec's words (§4.4), for comparison with the code's
`history_loop`:
`history(i,n) = Σ_{k=1}^{n−1} (b_{k−1}−b_k)·V[i, n−k] + b_{n−1}·V[i,0]`. -/
def history_spec (v : ℕ → ℕ → ℝ) (st i : ℕ) : ℝ :=
  (∑ k ∈ Finset.Ico 1 st, (b p (k - 1) - b p k) * v i (st - k)) + b p (st - 1) * v i 0

/-- The right-hand-side vector before boundary injection:
`for i in 1..m { ... rhs[(i - 1, 0)] = history; }` — entry `j` is the history
value of interior node `i = j + 1`. -/
def rhs0 (v : ℕ → ℕ → ℝ) (st : ℕ) : ℕ → ℝ := fun j => history_loop p v st (j + 1)

/-- The right-hand side after the boundary injection
`rhs[(m - 2, 0)] -= upper_val * v_upper;`. -/
def rhs_vec (v : ℕ → ℕ → ℝ) (st : ℕ) : ℕ → ℝ := fun j =>
  if j = m - 2 then rhs0 p v st j - upper_val p m n * v_upper_at p n st
  else rhs0 p v st j

/-- The body of one iteration of `for step in 1..=n`: solve against the
prefactorized operator, write the solution into the interior of column `st`,
and set the two boundary cells
`v[(0, step)] = 0.0; v[(m, step)] = v_upper;`.  Only column `st` changes. -/
def advance (v : ℕ → ℕ → ℝ) (st : ℕ) : ℕ → ℕ → ℝ := fun i s =>
  if s = st then
    if i = 0 then 0
    else if i = m then v_upper_at p n st
    else if i < m then fsolve (lu p m n factorize) (rhs_vec p m n v st) (i - 1)
    else v i s
  else v i s

/-- The solution matrix after `j` completed iterations of the time loop;
`vmat ... n` is the state when the loop finishes. -/
def vmat : ℕ → ℕ → ℕ → ℝ
  | 0 => v0 p m
  | (j + 1) => advance p m n factorize fsolve (vmat j) (j + 1)

/-- The right-hand-side vector passed to `lu.solve` at step `st` (the matrix
then holds columns `0..st-1`, i.e. it is `vmat (st - 1)`). -/
def rhs_at (st : ℕ) : ℕ → ℝ :=
  rhs_vec p m n (vmat p m n factorize fsolve (st - 1)) st

/-- The returned price column `(0..=m).map(|i| v[(i, n)]).collect()`. -/
def prices_col : List ℝ :=
  (List.range (m + 1)).map (fun i => vmat p m n factorize fsolve n i n)

/-- `pub fn solve_fx_tfbs_final_stable(params, m, n) -> (Vec<f64>, Vec<f64>)`.
The Rust function returns a plain pair and performs no validation; the only
inputs it cannot complete on are the panicking ones, modelled as `none`:
at `m = 0` the size expression of `Mat::zeros(m - 1, m - 1)` underflows
(before the time loop, hence for every `n`), and at `m = 1` the index
expression `rhs[(m - 2, 0)]` underflows in the body of the time loop, which
executes iff `n ≥ 1` — at `m = 1, n = 0` the loop `1..=0` is empty, the
underflowing index is never evaluated, and the function returns the grid and
the untouched payoff column normally.  Every run that returns is `some`. -/
def solve_fx_tfbs_final_stable : Option (List ℝ × List ℝ) :=
  if m = 0 then none
  else if m = 1 ∧ 1 ≤ n then none
  else some (s_grid p m, prices_col p m n factorize fsolve)

end FractionalPde

namespace FxMain

open FractionalPde

/-- The fixed configuration of `main` (main.rs, line 39):
`FxOptionParams { s_max: 20.0, k: 1.10, t: 1.0, rd: 0.04, rf: 0.02,
 sigma: 0.15, alpha: 0.85 }`. -/
def main_params : FxOptionParams :=
  { s_max := 20.0, k := 1.10, t := 1.0, rd := 0.04, rf := 0.02,
    sigma := 0.15, alpha := 0.85 }

/-- The grid `s` returned by the single call
`solve_fx_tfbs_final_stable(params, 400, 200)` in `main`. -/
def main_s : List ℝ := s_grid main_params 400

/-- The price vector returned by the same single call, for an arbitrary
implementation of the external LU collaborator. -/
def main_prices {F : Type} (factorize : (ℕ → ℕ → ℝ) → F)
    (fsolve : F → (ℕ → ℝ) → (ℕ → ℝ)) : List ℝ :=
  prices_col main_params 400 200 factorize fsolve

/-- `s.iter().position(|&x| x >= 1.10)` — the first index whose spot is at
least `1.10`. -/
def main_pos : Option ℕ := main_s.findIdx? (fun x => decide ((1.10 : ℝ) ≤ x))

/-- What `main` prints: `Some (s[pos], prices[pos])` when the position search
succeeds, nothing otherwise (main.rs, lines 41–43). -/
def main_output {F : Type} (factorize : (ℕ → ℕ → ℝ) → F)
    (fsolve : F → (ℕ → ℝ) → (ℕ → ℝ)) : Option (ℝ × ℝ) :=
  main_pos.map (fun i => (main_s.getD i 0, (main_prices factorize fsolve).getD i 0))

end FxMain

namespace KalmanFx

/-- One printed line of the Kalman driver (`println!` output), kept as
structured data rather than formatted text. -/
inductive PrintLine where
  | tableHeader : PrintLine
  | tableRule : PrintLine
  | filterRow (step : ℕ) (observation filtered predictedNext : ℝ) : PrintLine
  | covRow (step : ℕ) (price covariance : ℝ) : PrintLine

/-- The call interface of the external `kalman_filters` crate used by
`model_kalman_filter`: `build` models the whole
`KalmanFilterBuilder::new(1,1). ... .initial_state(vec![fx_data[0]]). ... .build()`
chain (its one data-dependent input is the initial state), the rest are the
methods called on the built filter. -/
structure KFApi (σ : Type) where
  build : ℝ → Except String σ
  predict : σ → σ
  update : σ → ℝ → Except String σ
  state : σ → ℝ
  covariance : σ → ℝ

/-- `pub fn read_csv() -> Vec<f64>`: the file-open result is the input
(`none` models `File::open("spot_rates.csv")` failing); each CSV record's
deserialization result is an `Except`, and `filter_map(|result| result.ok())`
keeps the parsed values. -/
def read_csv (file : Option (List (Except String ℝ))) : List ℝ :=
  match file with
  | none => []
  | some rows => rows.filterMap Except.toOption

/-- `let drift = 1.0;` -/
def drift : ℝ := 1.0

variable {σ : Type}

/-- The first `for (i, &measurement) in fx_data.iter().enumerate()` loop:
threads the filter state, accumulates printed rows, and propagates an
`update` error. -/
def loop1 (api : KFApi σ) : List (ℕ × ℝ) → σ → List PrintLine →
    Except String σ × List PrintLine
  | [], kf, acc => (.ok kf, acc)
  | (i, meas) :: rest, kf, acc =>
    if 0 < i then
      let kf1 := api.predict kf
      match api.update kf1 meas with
      | .error e => (.error e, acc)
      | .ok kf2 =>
        let filtered := api.state kf2
        loop1 api rest kf2 (acc ++ [.filterRow (i + 1) meas filtered (filtered * drift)])
    else loop1 api rest kf acc

/-- The second enumeration loop, printing the filtered price and its
covariance. -/
def loop2 (api : KFApi σ) : List (ℕ × ℝ) → σ → List PrintLine →
    Except String σ × List PrintLine
  | [], kf, acc => (.ok kf, acc)
  | (i, meas) :: rest, kf, acc =>
    if 0 < i then
      let kf1 := api.predict kf
      match api.update kf1 meas with
      | .error e => (.error e, acc)
      | .ok kf2 =>
        loop2 api rest kf2 (acc ++ [.covRow (i + 1) (api.state kf2) (api.covariance kf2)])
    else loop2 api rest kf acc

/-- `pub fn model_kalman_filter(fx_data: Vec<f64>) -> anyhow::Result<()>`.
The result carries, besides the `Result`, the printed lines and whether the
filter builder was ever invoked. -/
def model_kalman_filter (api : KFApi σ) (fx_data : List ℝ) :
    Except String Unit × List PrintLine × Bool :=
  match fx_data with
  | [] => (.error "Input FX data is empty", [], false)
  | x0 :: _ =>
    match api.build x0 with
    | .error e => (.error e, [], true)
    | .ok kf0 =>
      match loop1 api fx_data.enum kf0 [PrintLine.tableHeader, PrintLine.tableRule] with
      | (.error e, lines) => (.error e, lines, true)
      | (.ok kf1, lines) =>
        match loop2 api fx_data.enum kf1 lines with
        | (.error e, lines2) => (.error e, lines2, true)
        | (.ok _, lines2) => (.ok (), lines2, true)

/-- `fn main()` of the estimator: feed `read_csv`'s output into
`model_kalman_filter`. -/
def run_estimator (api : KFApi σ) (file : Option (List (Except String ℝ))) :
    Except String Unit × List PrintLine × Bool :=
  model_kalman_filter api (read_csv file)

end KalmanFx

namespace FractionalPde

/-- A concrete parameter set used to instantiate hypotheses in witness
theorems: `S_max = 20, K = 10, T = 1, r_d = 0, r_f = 0, σ = 1, α = 1/2`. -/
def sample_params : FxOptionParams :=
  { s_max := 20, k := 10, t := 1, rd := 0, rf := 0, sigma := 1, alpha := 1/2 }

end FractionalPde

namespace FractionalPde

variable (p : FxOptionParams) (m n : ℕ) {F : Type}
variable (factorize : (ℕ → ℕ → ℝ) → F) (fsolve : F → (ℕ → ℝ) → (ℕ → ℝ))

theorem vmat_succ (j : ℕ) :
    vmat p m n factorize fsolve (j + 1) =
      advance p m n factorize fsolve (vmat p m n factorize fsolve j) (j + 1) := rfl

theorem advance_ne {v : ℕ → ℕ → ℝ} {st i s : ℕ} (h : s ≠ st) :
    advance p m n factorize fsolve v st i s = v i s := by
  simp [advance, h]

/-- Step `j'` of the loop only writes column `j'`: all columns `≤ j` are
unchanged by every later iteration. -/
theorem vmat_stable {j j' : ℕ} (hjj : j ≤ j') {s : ℕ} (hs : s ≤ j) (i : ℕ) :
    vmat p m n factorize fsolve j' i s = vmat p m n factorize fsolve j i s := by
  induction j' with
  | zero =>
    have hj0 : j = 0 := Nat.le_zero.mp hjj
    subst hj0; rfl
  | succ j' ih =>
    rcases Nat.lt_or_ge j (j' + 1) with h | h
    · have h1 : j ≤ j' := Nat.lt_succ_iff.mp h
      rw [vmat_succ, advance_ne p m n factorize fsolve (by omega : s ≠ j' + 1), ih h1]
    · have hj : j = j' + 1 := le_antisymm hjj h
      subst hj; rfl

theorem vmat_col_zero (j i : ℕ) :
    vmat p m n factorize fsolve j i 0 = v0 p m i 0 := by
  induction j with
  | zero => rfl
  | succ j ih =>
    rw [vmat_succ, advance_ne p m n factorize fsolve (by omega : (0:ℕ) ≠ j + 1), ih]

/-- C4: for every spatial index `i = 0..M`, the initial column of the solution
matrix holds the terminal payoff `V[i, 0] = max(S_i - K, 0)` with `S_i` the
`i`-th grid point; column 0 is written once before time stepping and never
modified by any later step (the statement holds after `j` steps for every
`j ≤ N`). -/
theorem terminal_condition (j i : ℕ) (hj : j ≤ n) (hi : i ≤ m) :
    vmat p m n factorize fsolve j i 0 = max (s_grid_fun p m i - p.k) 0 := by
  rw [vmat_col_zero]
  simp [v0, payoff, hi]

/-- Witness for `terminal_condition` at a concrete input. -/
theorem terminal_condition_witness :
    ((1:ℕ) ≤ 2 ∧ (1:ℕ) ≤ 3) ∧
      vmat sample_params 3 2 (fun _ => ()) (fun _ _ _ => 0) 1 1 0 =
        max (s_grid_fun sample_params 3 1 - sample_params.k) 0 :=
  ⟨⟨by norm_num, by norm_num⟩,
    terminal_condition sample_params 3 2 (fun _ => ()) (fun _ _ _ => 0) 1 1
      (by norm_num) (by norm_num)⟩

/-- C3: after step `n` completes (and in every reachable later state `j` of
the stepping loop), the boundary cells satisfy `V[0, n] = 0` and
`V[M, n] = S_max·e^{-r_f·t_n} - K·e^{-r_d·t_n}` with `t_n = n·dt`.  The
statement is quantified over an arbitrary `fsolve`, so the two cells are not
outputs of the linear solve. -/
theorem boundary_invariant (st j : ℕ) (hst : 1 ≤ st) (hj : st ≤ j) (hjn : j ≤ n)
    (hm : 2 ≤ m) :
    vmat p m n factorize fsolve j 0 st = 0 ∧
    vmat p m n factorize fsolve j m st =
      p.s_max * Real.exp (-p.rf * (st * dt p n)) - p.k * Real.exp (-p.rd * (st * dt p n)) := by
  induction j with
  | zero => omega
  | succ j ih =>
    rcases Nat.lt_or_ge j st with h | h
    · have hst' : st = j + 1 := by omega
      subst hst'
      refine ⟨?_, ?_⟩
      · rw [vmat_succ]; simp [advance]
      · rw [vmat_succ]
        have hm0 : m ≠ 0 := by omega
        simp [advance, hm0, v_upper_at]
    · have hres := ih h (by omega)
      rw [vmat_succ]
      simp only [advance_ne p m n factorize fsolve (by omega : st ≠ j + 1)]
      exact hres

/-- Witness for `boundary_invariant` at a concrete input. -/
theorem boundary_invariant_witness :
    ((1:ℕ) ≤ 1 ∧ (1:ℕ) ≤ 2 ∧ (2:ℕ) ≤ 2 ∧ (2:ℕ) ≤ 3) ∧
      (vmat sample_params 3 2 (fun _ => ()) (fun _ _ _ => 0) 2 0 1 = 0 ∧
       vmat sample_params 3 2 (fun _ => ()) (fun _ _ _ => 0) 2 3 1 =
         sample_params.s_max * Real.exp (-sample_params.rf * (((1:ℕ):ℝ) * dt sample_params 2)) -
           sample_params.k * Real.exp (-sample_params.rd * (((1:ℕ):ℝ) * dt sample_params 2))) :=
  ⟨⟨by norm_num, by norm_num, by norm_num, by norm_num⟩,
    boundary_invariant sample_params 3 2 (fun _ => ()) (fun _ _ _ => 0) 1 2
      (by norm_num) (by norm_num) (by norm_num) (by norm_num)⟩

/-- C7 counterexample: the claim says `M = 1` (or `N = 1`) yields an
`InvalidGridSize` error and `α ∈ {0.0, 1.0, 1.5}` yields `InvalidParameter`,
with the result distinguishing errors from successes.  In fact the function
has no error channel at all: at `M = 1` it panics on the underflowing index
`rhs[(m - 2, 0)]` (modelled `none`), while at `N = 1` and at `α = 1.5` it
completes normally and returns a plain pair (`isSome`). -/
theorem no_validation_counterexample :
    solve_fx_tfbs_final_stable FxMain.main_params 1 200 (fun _ => ()) (fun _ _ _ => 0) = none ∧
    (solve_fx_tfbs_final_stable FxMain.main_params 4 1 (fun _ => ()) (fun _ _ _ => 0)).isSome = true ∧
    (solve_fx_tfbs_final_stable { FxMain.main_params with alpha := 1.5 } 4 2
        (fun _ => ()) (fun _ _ _ => 0)).isSome = true := by
  refine ⟨?_, ?_, ?_⟩ <;> norm_num [solve_fx_tfbs_final_stable]

/-- C7 amended: `solve_fx_tfbs_final_stable` performs no input validation and
its result type does not distinguish an error case: calling it with `M = 1`
panics on an index underflow in the time-loop body (modelled `none`) for every
`N ≥ 1` instead of raising `InvalidGridSize`, but returns normally at
`M = 1, N = 0` where the loop `1..=0` is empty; with `M = 0` the
`Mat::zeros(m - 1, m - 1)` size underflows and it panics for every `N`; and
for every `M ≥ 2` it returns a normal pair for every parameter set (in
particular for `N = 1` and for `α = 0.0`, `1.0` or `1.5`, which raise no
`InvalidParameter`). -/
theorem no_validation_amended (q : FxOptionParams) (m' n' : ℕ) {F' : Type}
    (factorize' : (ℕ → ℕ → ℝ) → F') (fsolve' : F' → (ℕ → ℝ) → (ℕ → ℝ))
    (hm : 2 ≤ m') (hn : 1 ≤ n') :
    solve_fx_tfbs_final_stable q 1 n' factorize' fsolve' = none ∧
    (solve_fx_tfbs_final_stable q 1 0 factorize' fsolve').isSome = true ∧
    solve_fx_tfbs_final_stable q 0 n' factorize' fsolve' = none ∧
    (solve_fx_tfbs_final_stable q m' n' factorize' fsolve').isSome = true := by
  refine ⟨?_, ?_, ?_, ?_⟩
  · simp [solve_fx_tfbs_final_stable, hn]
  · simp [solve_fx_tfbs_final_stable]
  · simp [solve_fx_tfbs_final_stable]
  · simp [solve_fx_tfbs_final_stable, show ¬ m' = 0 by omega,
      show ¬ (m' = 1 ∧ 1 ≤ n') by omega]

/-- Witness for `no_validation_amended` at a concrete input. -/
theorem no_validation_amended_witness :
    ((2:ℕ) ≤ 5 ∧ (1:ℕ) ≤ 1) ∧
      (solve_fx_tfbs_final_stable sample_params 1 1 (fun _ => ()) (fun _ _ _ => 0) = none ∧
       (solve_fx_tfbs_final_stable sample_params 1 0 (fun _ => ()) (fun _ _ _ => 0)).isSome = true ∧
       solve_fx_tfbs_final_stable sample_params 0 1 (fun _ => ()) (fun _ _ _ => 0) = none ∧
       (solve_fx_tfbs_final_stable sample_params 5 1 (fun _ => ()) (fun _ _ _ => 0)).isSome = true) :=
  ⟨⟨by norm_num, by norm_num⟩,
    no_validation_amended sample_params 5 1 (fun _ => ()) (fun _ _ _ => 0)
      (by norm_num) (by norm_num)⟩

end FractionalPde

namespace KalmanFx

/-- C10: `read_csv` returns the empty vector when the file cannot be opened
and silently skips unparseable rows; `model_kalman_filter` returns the error
`"Input FX data is empty"` on an empty input without constructing the filter
(`false` flag) or printing anything (`[]`); composing the two, running the
estimator with no CSV present produces no filtered output. -/
theorem empty_csv_and_empty_input :
    read_csv none = [] ∧
    (∀ rows, read_csv (some rows) = rows.filterMap Except.toOption) ∧
    (∀ (σ : Type) (api : KFApi σ),
      model_kalman_filter api [] = (.error "Input FX data is empty", [], false)) ∧
    (∀ (σ : Type) (api : KFApi σ),
      run_estimator api none = (.error "Input FX data is empty", [], false)) :=
  ⟨rfl, fun _ => rfl, fun _ _ => rfl, fun _ _ => rfl⟩

end KalmanFx

namespace FractionalPde

variable (p : FxOptionParams) (m n : ℕ) {F : Type} in
theorem foldl_add_sum (g : ℕ → ℝ) (len : ℕ) :
    ∀ acc : ℝ, (List.range' 1 len).foldl (fun a k => a + g k) acc =
      acc + ∑ k ∈ Finset.Ico 1 (len + 1), g k := by
  induction len with
  | zero => intro acc; simp
  | succ len ih =>
    intro acc
    rw [List.range'_1_concat, List.foldl_append, ih]
    simp only [List.foldl_cons, List.foldl_nil]
    rw [Finset.sum_Ico_succ_top (by omega : 1 ≤ len + 1)]
    have h1 : 1 + len = len + 1 := Nat.add_comm 1 len
    rw [h1]; ring

variable (p : FxOptionParams) in
/-- The imperative history accumulation computes exactly the history sum the
spec states. -/
theorem history_loop_eq_spec (v : ℕ → ℕ → ℝ) (st i : ℕ) :
    history_loop p v st i = history_spec p v st i := by
  rcases st with _ | st'
  · simp [history_loop, history_spec]
  · simp only [history_loop, history_spec, Nat.succ_sub_one]
    rw [foldl_add_sum]
    ring

variable (p : FxOptionParams) (m n : ℕ) {F : Type}
variable (factorize : (ℕ → ℕ → ℝ) → F) (fsolve : F → (ℕ → ℝ) → (ℕ → ℝ))

/-- C1: for `1 ≤ st ≤ N` and every interior node `i = 1..M-1`, the
right-hand-side vector passed to the tridiagonal solve at step `st` has entry
`i - 1` equal to `Σ_{k=1}^{st-1} (b_{k-1} - b_k)·V[i, st-k] + b_{st-1}·V[i, 0]`
(columns of the finished matrix), except that the last entry (index `M - 2`)
is additionally decremented by `upper_val · V_upper(t_st)`. -/
theorem rhs_matches_history (st i : ℕ) (hst : 1 ≤ st) (hstn : st ≤ n)
    (hi : 1 ≤ i) (him : i < m) :
    rhs_at p m n factorize fsolve st (i - 1) =
      ((∑ k ∈ Finset.Ico 1 st,
          (b p (k - 1) - b p k) * vmat p m n factorize fsolve n i (st - k))
        + b p (st - 1) * vmat p m n factorize fsolve n i 0)
      - (if i - 1 = m - 2 then upper_val p m n * v_upper_at p n st else 0) := by
  have key : history_loop p (vmat p m n factorize fsolve (st - 1)) st i =
      (∑ k ∈ Finset.Ico 1 st,
          (b p (k - 1) - b p k) * vmat p m n factorize fsolve n i (st - k))
        + b p (st - 1) * vmat p m n factorize fsolve n i 0 := by
    rw [history_loop_eq_spec]
    unfold history_spec
    congr 1
    · apply Finset.sum_congr rfl
      intro k hk
      rw [Finset.mem_Ico] at hk
      rw [vmat_stable p m n factorize fsolve (show st - 1 ≤ n by omega)
        (show st - k ≤ st - 1 by omega)]
    · rw [vmat_stable p m n factorize fsolve (show st - 1 ≤ n by omega)
        (show (0:ℕ) ≤ st - 1 by omega)]
  have hi1 : i - 1 + 1 = i := by omega
  unfold rhs_at rhs_vec rhs0
  simp only [hi1, key]
  split_ifs with h <;> simp

/-- Witness for `rhs_matches_history` at a concrete input. -/
theorem rhs_matches_history_witness :
    ((1:ℕ) ≤ 1 ∧ (1:ℕ) ≤ 2 ∧ (1:ℕ) ≤ 1 ∧ (1:ℕ) < 3) ∧
      rhs_at sample_params 3 2 (fun _ => ()) (fun _ _ _ => 0) 1 0 =
        ((∑ k ∈ Finset.Ico 1 1,
            (b sample_params (k - 1) - b sample_params k) *
              vmat sample_params 3 2 (fun _ => ()) (fun _ _ _ => 0) 2 1 (1 - k))
          + b sample_params 0 * vmat sample_params 3 2 (fun _ => ()) (fun _ _ _ => 0) 2 1 0)
        - (if (0:ℕ) = 1 then upper_val sample_params 3 2 * v_upper_at sample_params 2 1 else 0) :=
  ⟨⟨by norm_num, by norm_num, by norm_num, by norm_num⟩,
    rhs_matches_history sample_params 3 2 (fun _ => ()) (fun _ _ _ => 0) 1 1
      (by norm_num) (by norm_num) (by norm_num) (by norm_num)⟩

variable (q : FxOptionParams) in
theorem b_zero (h1 : q.alpha < 1) : b q 0 = 1 := by
  have hne : (1:ℝ) - q.alpha ≠ 0 := sub_ne_zero.mpr (ne_of_gt h1)
  simp [b, Real.one_rpow, Real.zero_rpow hne]

/-- C2: for every step `st ≥ 1` the history weights telescope:
`Σ_{k=1}^{st-1} (b_{k-1} - b_k) + b_{st-1} = b_0 = 1` exactly for `α ∈ (0,1)`
(the coefficients of `history(i, st)` over the prior columns sum to 1), and at
step 1 the right-hand side before boundary injection equals the terminal
payoff column at the interior nodes. -/
theorem weights_telescope (st : ℕ) (h0 : 0 < p.alpha) (h1 : p.alpha < 1) (hst : 1 ≤ st) :
    ((∑ k ∈ Finset.Ico 1 st, (b p (k - 1) - b p k)) + b p (st - 1) = 1) ∧
    (∀ j, j < m - 1 →
      rhs0 p (vmat p m n factorize fsolve 0) 1 j = payoff p m (j + 1)) := by
  constructor
  · have htel : ∑ k ∈ Finset.Ico 1 st, (b p (k - 1) - b p k) = b p 0 - b p (st - 1) := by
      rw [Finset.sum_Ico_eq_sum_range]
      have hcongr : ∀ j ∈ Finset.range (st - 1),
          b p (1 + j - 1) - b p (1 + j) = b p j - b p (j + 1) := by
        intro j _
        rw [show 1 + j - 1 = j from by omega, show 1 + j = j + 1 from by omega]
      rw [Finset.sum_congr rfl hcongr, Finset.sum_range_sub' (f := b p)]
    rw [htel, b_zero p h1]
    ring
  · intro j hj
    have hjm : j + 1 ≤ m := by omega
    simp [rhs0, history_loop, vmat, v0, hjm, b_zero p h1]

/-- Witness for `weights_telescope` at a concrete input. -/
theorem weights_telescope_witness :
    ((0:ℝ) < sample_params.alpha ∧ sample_params.alpha < 1 ∧ (1:ℕ) ≤ 2 ∧ (0:ℕ) < 3 - 1) ∧
      ((∑ k ∈ Finset.Ico 1 2, (b sample_params (k - 1) - b sample_params k))
          + b sample_params 1 = 1) ∧
      rhs0 sample_params (vmat sample_params 3 2 (fun _ => ()) (fun _ _ _ => 0) 0) 1 0 =
        payoff sample_params 3 1 :=
  ⟨⟨by norm_num [sample_params], by norm_num [sample_params], by norm_num, by norm_num⟩,
    (weights_telescope sample_params 3 2 (fun _ => ()) (fun _ _ _ => 0) 2
        (by norm_num [sample_params]) (by norm_num [sample_params]) (by norm_num)).1,
    (weights_telescope sample_params 3 2 (fun _ => ()) (fun _ _ _ => 0) 2
        (by norm_num [sample_params]) (by norm_num [sample_params]) (by norm_num)).2 0
      (by norm_num)⟩

end FractionalPde

namespace FractionalPde

variable (q : FxOptionParams) in
theorem b_pos (h1 : q.alpha < 1) (j : ℕ) : 0 < b q j := by
  unfold b
  have h := Real.rpow_lt_rpow (Nat.cast_nonneg j)
    (by linarith : (j:ℝ) < (j:ℝ) + 1) (by linarith : (0:ℝ) < 1 - q.alpha)
  linarith

variable (q : FxOptionParams) in
theorem b_strict_anti (h0 : 0 < q.alpha) (h1 : q.alpha < 1) (j : ℕ) :
    b q (j + 1) < b q j := by
  have hg0 : (0:ℝ) < 1 - q.alpha := by linarith
  have hg1 : 1 - q.alpha < 1 := by linarith
  have hconc := Real.strictConcaveOn_rpow hg0 hg1
  have hx : (j:ℝ) ∈ Set.Ici (0:ℝ) := Set.mem_Ici.mpr (Nat.cast_nonneg j)
  have hy : (j:ℝ) + 2 ∈ Set.Ici (0:ℝ) := Set.mem_Ici.mpr (by positivity)
  have hxy : (j:ℝ) ≠ (j:ℝ) + 2 := by linarith
  have key := hconc.2 hx hy hxy (by norm_num : (0:ℝ) < 1/2)
    (by norm_num : (0:ℝ) < 1/2) (by norm_num : (1:ℝ)/2 + 1/2 = 1)
  have hmid : (1/2 : ℝ) • (j:ℝ) + (1/2 : ℝ) • ((j:ℝ) + 2) = (j:ℝ) + 1 := by
    simp only [smul_eq_mul]; ring
  rw [hmid] at key
  simp only [smul_eq_mul] at key
  unfold b
  push_cast
  have h22 : (j:ℝ) + 1 + 1 = (j:ℝ) + 2 := by ring
  rw [h22]
  linarith

variable (q : FxOptionParams) in
/-- C6: for every `α ∈ (0,1)` and every `j ≥ 0`, the history weights
`b_j = (j+1)^{1-α} - j^{1-α}` are strictly positive and strictly decreasing:
`b_j > b_{j+1} > 0`. -/
theorem weights_pos_and_decreasing (h0 : 0 < q.alpha) (h1 : q.alpha < 1) (j : ℕ) :
    b q (j + 1) < b q j ∧ 0 < b q (j + 1) ∧ 0 < b q j :=
  ⟨b_strict_anti q h0 h1 j, b_pos q h1 (j + 1), b_pos q h1 j⟩

/-- Witness for `weights_pos_and_decreasing` at a concrete input. -/
theorem weights_pos_and_decreasing_witness :
    ((0:ℝ) < sample_params.alpha ∧ sample_params.alpha < 1) ∧
      (b sample_params 1 < b sample_params 0 ∧ 0 < b sample_params 1 ∧
        0 < b sample_params 0) :=
  ⟨⟨by norm_num [sample_params], by norm_num [sample_params]⟩,
    weights_pos_and_decreasing sample_params (by norm_num [sample_params])
      (by norm_num [sample_params]) 0⟩

variable (p : FxOptionParams) (m n : ℕ) {F : Type}
variable (factorize : (ℕ → ℕ → ℝ) → F) (fsolve : F → (ℕ → ℝ) → (ℕ → ℝ))

theorem assemble_foldl (kk r c : ℕ) :
    ((List.range kk).foldl (assemble_step p m n) (fun _ _ => 0)) r c =
      if r < kk then tri_entry p m n r c else 0 := by
  induction kk with
  | zero => simp
  | succ kk ih =>
    rw [List.range_succ, List.foldl_append]
    simp only [List.foldl_cons, List.foldl_nil]
    by_cases hr : r = kk
    · subst hr
      rw [if_pos (Nat.lt_succ_self r)]
      have hB : List.foldl (assemble_step p m n) (fun _ _ => 0) (List.range r) r c = 0 := by
        rw [ih]; simp
      simp only [assemble_step, tri_entry]
      split_ifs <;> simp only [mwrite, hB] <;> (try split_ifs) <;>
        first | rfl | (exfalso; omega) | simp_all
    · have hstep : assemble_step p m n
          ((List.range kk).foldl (assemble_step p m n) (fun _ _ => 0)) kk r c =
          ((List.range kk).foldl (assemble_step p m n) (fun _ _ => 0)) r c := by
        simp only [assemble_step]
        split_ifs <;> simp [mwrite, hr]
      rw [hstep, ih]
      by_cases h2 : r < kk
      · rw [if_pos h2, if_pos (by omega : r < kk + 1)]
      · rw [if_neg h2, if_neg (by omega : ¬ r < kk + 1)]

theorem a_matrix_entry (r c : ℕ) :
    a_matrix p m n r c = if r < m - 1 then tri_entry p m n r c else 0 :=
  assemble_foldl p m n (m - 1) r c

/-- C5: the interior operator is an `(M-1)×(M-1)` tridiagonal matrix whose
main diagonal is `1 + 2·alpha_coeff + gamma_coeff`, whose superdiagonal is
`-(alpha_coeff + beta_coeff)` and whose subdiagonal is
`-(alpha_coeff - beta_coeff)` (with `alpha_coeff = d·σ²/(2dx²)`,
`beta_coeff = d·drift/(2dx)`, `gamma_coeff = d·r_d`, `d = dt^α·Γ(2-α)`,
`drift = (r_d - r_f) - σ²/2`, by the definitions above); it is factorized
once (`factorize (a_matrix ...)`) before the time loop and that same
factorization is the one solved against at every one of the `N` steps. -/
theorem operator_assembly_and_reuse (hm : 2 ≤ m) :
    (∀ i, i < m - 1 →
      a_matrix p m n i i = 1 + 2 * alpha_coeff p m n + gamma_coeff p n) ∧
    (∀ i, i < m - 2 →
      a_matrix p m n i (i + 1) = -(alpha_coeff p m n + beta_coeff p m n)) ∧
    (∀ i, 0 < i → i < m - 1 →
      a_matrix p m n i (i - 1) = -(alpha_coeff p m n - beta_coeff p m n)) ∧
    (∀ i c, i < m - 1 → c < m - 1 → c ≠ i → c ≠ i + 1 → c + 1 ≠ i →
      a_matrix p m n i c = 0) ∧
    (∀ st, 1 ≤ st → st ≤ n → ∀ i, 1 ≤ i → i < m →
      vmat p m n factorize fsolve n i st =
        fsolve (factorize (a_matrix p m n)) (rhs_at p m n factorize fsolve st) (i - 1)) := by
  refine ⟨?_, ?_, ?_, ?_, ?_⟩
  · intro i hi
    rw [a_matrix_entry, if_pos hi, tri_entry, if_pos rfl, main_diag]
  · intro i hi
    rw [a_matrix_entry, if_pos (by omega : i < m - 1), tri_entry,
      if_neg (by omega : ¬ i + 1 = i), if_neg (by omega : ¬ (0 < i ∧ i + 1 = i - 1)),
      if_pos ⟨hi, rfl⟩, upper_val]
  · intro i hi0 hi
    rw [a_matrix_entry, if_pos hi, tri_entry, if_neg (by omega : ¬ i - 1 = i),
      if_pos ⟨hi0, rfl⟩, lower_val]
  · intro i c hi hc h1 h2 h3
    rw [a_matrix_entry, if_pos hi, tri_entry, if_neg (by omega : ¬ c = i),
      if_neg (by omega : ¬ (0 < i ∧ c = i - 1)), if_neg (by omega : ¬ (i < m - 2 ∧ c = i + 1))]
  · intro st h1 h2 i hi him
    obtain ⟨u, rfl⟩ : ∃ u, st = u + 1 := ⟨st - 1, by omega⟩
    rw [vmat_stable p m n factorize fsolve h2 (le_refl (u + 1)) i, vmat_succ]
    simp only [advance, if_true]
    rw [if_neg (by omega : ¬ i = 0), if_neg (by omega : ¬ i = m), if_pos him]
    rfl

/-- Witness for `operator_assembly_and_reuse` at a concrete input. -/
theorem operator_assembly_and_reuse_witness :
    ((2:ℕ) ≤ 3 ∧ (0:ℕ) < 3 - 1) ∧
      a_matrix sample_params 3 2 0 0 =
        1 + 2 * alpha_coeff sample_params 3 2 + gamma_coeff sample_params 2 :=
  ⟨⟨by norm_num, by norm_num⟩,
    (operator_assembly_and_reuse sample_params 3 2 (fun _ => ()) (fun _ _ _ => 0)
        (by norm_num)).1 0 (by norm_num)⟩

theorem getD_map_range (f : ℕ → ℝ) (N i : ℕ) (h : i < N) :
    ((List.range N).map f).getD i 0 = f i := by
  simp [List.getD_eq_getElem?_getD, List.getElem?_map, List.getElem?_range h]

/-- C8: for `K > 0`, `S_max > K/10` and `M ≥ 2`, the spot grid has length
`M + 1`, is strictly increasing, has first element `K/10` (exactly, in real
arithmetic) and last element `S_max` exactly, with
`S_i = exp(x_min + i·dx)`, `x_min = ln(K/10)`, `x_max = ln(S_max)`,
`dx = (x_max - x_min)/M`. -/
theorem grid_shape (hk : 0 < p.k) (hs : p.k / 10 < p.s_max) (hm : 2 ≤ m) :
    (s_grid p m).length = m + 1 ∧
    (∀ i, i < m → s_grid_fun p m i < s_grid_fun p m (i + 1)) ∧
    s_grid_fun p m 0 = p.k / 10 ∧
    s_grid_fun p m m = p.s_max ∧
    (∀ i, i ≤ m → (s_grid p m).getD i 0 = s_grid_fun p m i) := by
  have h10 : (0:ℝ) < p.k / 10 := by positivity
  have hsm : (0:ℝ) < p.s_max := lt_trans h10 hs
  have hlt : x_min p < x_max p := Real.log_lt_log h10 hs
  have hm0 : (0:ℝ) < (m:ℝ) := by
    have : 0 < m := by omega
    exact_mod_cast this
  have hdx : 0 < dx p m := div_pos (sub_pos.mpr hlt) hm0
  refine ⟨?_, ?_, ?_, ?_, ?_⟩
  · simp [s_grid]
  · intro i hi
    apply Real.exp_lt_exp.mpr
    push_cast
    nlinarith [hdx]
  · simp only [s_grid_fun, Nat.cast_zero, zero_mul, add_zero]
    exact Real.exp_log h10
  · have : x_min p + (m:ℝ) * dx p m = x_max p := by
      field_simp [dx]
    simp only [s_grid_fun, this]
    exact Real.exp_log hsm
  · intro i hi
    exact getD_map_range (s_grid_fun p m) (m + 1) i (by omega)

/-- Witness for `grid_shape` at a concrete input. -/
theorem grid_shape_witness :
    ((0:ℝ) < sample_params.k ∧ sample_params.k / 10 < sample_params.s_max ∧ (2:ℕ) ≤ 3) ∧
      s_grid_fun sample_params 3 0 = sample_params.k / 10 :=
  ⟨⟨by norm_num [sample_params], by norm_num [sample_params], by norm_num⟩,
    (grid_shape sample_params 3 (by norm_num [sample_params])
        (by norm_num [sample_params]) (by norm_num)).2.2.1⟩

end FractionalPde

namespace FxMain

open FractionalPde

theorem main_s_getD (i : ℕ) (h : i < 401) :
    main_s.getD i 0 = s_grid_fun main_params 400 i := by
  have : main_s = (List.range 401).map (s_grid_fun main_params 400) := rfl
  rw [this]
  exact getD_map_range (s_grid_fun main_params 400) 401 i h

/-- Compares a grid sample of the fixed `main` configuration with a positive
bound by reducing the transcendental comparison to an exact rational power
inequality: `S_i = exp((400-i)/400 · ln(11/100) + i/400 · ln 20)`, so
`S_i < c ↔ (11/100)^(400-i)·20^i < c^400` and symmetrically. -/
theorem main_grid_vs (i : ℕ) (hi : i ≤ 400) (c : ℝ) (hc : 0 < c) :
    (s_grid_fun main_params 400 i < c ↔ ((11:ℝ)/100) ^ (400 - i) * 20 ^ i < c ^ 400) ∧
    (c < s_grid_fun main_params 400 i ↔ c ^ 400 < ((11:ℝ)/100) ^ (400 - i) * 20 ^ i) := by
  have hprod : (0:ℝ) < ((11:ℝ)/100) ^ (400 - i) * 20 ^ i := by positivity
  have hc400 : (0:ℝ) < c ^ 400 := by positivity
  set X : ℝ := Real.log (11/100) + i * ((Real.log 20 - Real.log (11/100)) / 400) with hXdef
  have hform : s_grid_fun main_params 400 i = Real.exp X := by
    simp only [s_grid_fun, x_min, x_max, dx, main_params, hXdef]
    norm_num
  have hX : (400:ℝ) * X = Real.log (((11:ℝ)/100) ^ (400 - i) * 20 ^ i) := by
    rw [Real.log_mul (by positivity) (by positivity), Real.log_pow, Real.log_pow,
      Nat.cast_sub hi, hXdef]
    push_cast
    ring
  have hc4 : (400:ℝ) * Real.log c = Real.log (c ^ 400) := by
    rw [Real.log_pow]
    push_cast
    ring
  constructor
  · rw [hform, ← Real.lt_log_iff_exp_lt hc]
    constructor
    · intro h
      have h4 : (400:ℝ) * X < 400 * Real.log c := by linarith
      rw [hX, hc4] at h4
      exact (Real.log_lt_log_iff hprod hc400).mp h4
    · intro h
      have h4 : Real.log (((11:ℝ)/100) ^ (400 - i) * 20 ^ i) < Real.log (c ^ 400) :=
        Real.log_lt_log hprod h
      rw [← hX, ← hc4] at h4
      linarith
  · rw [hform, ← Real.log_lt_iff_lt_exp hc]
    constructor
    · intro h
      have h4 : (400:ℝ) * Real.log c < 400 * X := by linarith
      rw [hX, hc4] at h4
      exact (Real.log_lt_log_iff hc400 hprod).mp h4
    · intro h
      have h4 : Real.log (c ^ 400) < Real.log (((11:ℝ)/100) ^ (400 - i) * 20 ^ i) :=
        Real.log_lt_log hc400 h
      rw [← hX, ← hc4] at h4
      linarith

theorem main_s_177_lt : s_grid_fun main_params 400 177 < 1.10 := by
  rw [show (1.10:ℝ) = 11/10 by norm_num]
  refine ((main_grid_vs 177 (by norm_num) (11/10) (by norm_num)).1).mpr ?_
  norm_num

theorem main_s_178_gt : (1.10:ℝ) < s_grid_fun main_params 400 178 := by
  rw [show (1.10:ℝ) = 11/10 by norm_num]
  refine ((main_grid_vs 178 (by norm_num) (11/10) (by norm_num)).2).mpr ?_
  norm_num

theorem main_s_177_gt : (1.0995:ℝ) < s_grid_fun main_params 400 177 := by
  rw [show (1.0995:ℝ) = 10995/10000 by norm_num]
  refine ((main_grid_vs 177 (by norm_num) (10995/10000) (by norm_num)).2).mpr ?_
  norm_num

theorem main_s_178_far : (1.113:ℝ) < s_grid_fun main_params 400 178 := by
  rw [show (1.113:ℝ) = 1113/1000 by norm_num]
  refine ((main_grid_vs 178 (by norm_num) (1113/1000) (by norm_num)).2).mpr ?_
  norm_num

theorem main_s_strictMono : StrictMono (s_grid_fun main_params 400) := by
  have hlt : x_min main_params < x_max main_params := by
    simp only [x_min, x_max, main_params]
    exact Real.log_lt_log (by norm_num) (by norm_num)
  have hdx : 0 < dx main_params 400 :=
    div_pos (sub_pos.mpr hlt) (by norm_num)
  apply strictMono_nat_of_lt_succ
  intro i
  apply Real.exp_lt_exp.mpr
  have hexp : ((i:ℝ) + 1) * dx main_params 400 =
      (i:ℝ) * dx main_params 400 + dx main_params 400 := by ring
  push_cast
  linarith

theorem findIdx_first (q : ℝ → Bool) :
    ∀ (l : List ℝ) (k : ℕ), k < l.length →
      (∀ j, j < k → q (l.getD j 0) = false) → q (l.getD k 0) = true →
      l.findIdx? q = some k := by
  intro l
  induction l with
  | nil => intro k hk _ _; simp at hk
  | cons x xs ih =>
    intro k hk hbefore hhit
    rcases k with _ | k'
    · simp only [List.getD_cons_zero] at hhit
      simp [List.findIdx?_cons, hhit]
    · have hx : q x = false := by
        have := hbefore 0 (by omega)
        simpa using this
      have hxs : xs.findIdx? q = some k' := by
        apply ih
        · simpa using hk
        · intro j hj
          have := hbefore (j + 1) (by omega)
          simpa using this
        · simpa using hhit
      simp [List.findIdx?_cons, hx, List.findIdx?_succ, hxs]

/-- The position search of `main` returns index 178: the first grid point at
or above `1.10`. -/
theorem main_pos_eq : main_pos = some 178 := by
  have hlen : main_s.length = 401 := by
    simp [main_s, s_grid]
  apply findIdx_first
  · rw [hlen]; norm_num
  · intro j hj
    rw [main_s_getD j (by omega)]
    apply decide_eq_false
    have hle : s_grid_fun main_params 400 j ≤ s_grid_fun main_params 400 177 :=
      main_s_strictMono.monotone (by omega)
    have := main_s_177_lt
    exact not_le.mpr (by linarith)
  · rw [main_s_getD 178 (by omega)]
    exact decide_eq_true (le_of_lt main_s_178_gt)

/-- C9 counterexample: the claim says `main` selects the grid index minimizing
the distance to the target spot `1.10`.  In fact `position(|&x| x >= 1.10)`
selects the first index at or above the target: index 178 (spot `≈ 1.1141`),
while index 177 (spot `≈ 1.0997`) is strictly nearer to `1.10`. -/
theorem nearest_spot_counterexample :
    main_pos = some 178 ∧
    |main_s.getD 177 0 - 1.10| < |main_s.getD 178 0 - 1.10| := by
  refine ⟨main_pos_eq, ?_⟩
  rw [main_s_getD 177 (by norm_num), main_s_getD 178 (by norm_num)]
  have h1 := main_s_177_lt
  have h2 := main_s_177_gt
  have h3 := main_s_178_far
  rw [abs_of_neg (by norm_num at h1 ⊢; linarith), abs_of_pos (by norm_num at h3 ⊢; linarith)]
  norm_num at h1 h2 h3 ⊢
  linarith

/-- C9 amended: the command-line entry point calls the solver exactly once
with its fixed configuration and selects and prints the first grid point whose
spot is at least the target `1.10` (index 178, the nearest grid point from
above, which is not the globally nearest one) together with the option value
at that same index. -/
theorem nearest_spot_amended {F : Type} (factorize : (ℕ → ℕ → ℝ) → F)
    (fsolve : F → (ℕ → ℝ) → (ℕ → ℝ)) :
    main_output factorize fsolve =
      some (main_s.getD 178 0, (main_prices factorize fsolve).getD 178 0) ∧
    (∀ j, j < 178 → main_s.getD j 0 < 1.10) ∧
    (1.10:ℝ) ≤ main_s.getD 178 0 := by
  refine ⟨?_, ?_, ?_⟩
  · rw [main_output, main_pos_eq]
    rfl
  · intro j hj
    rw [main_s_getD j (by omega)]
    have hle : s_grid_fun main_params 400 j ≤ s_grid_fun main_params 400 177 :=
      main_s_strictMono.monotone (by omega)
    have := main_s_177_lt
    linarith
  · rw [main_s_getD 178 (by norm_num)]
    exact le_of_lt main_s_178_gt

/-- Witness for `nearest_spot_amended` at a concrete input. -/
theorem nearest_spot_amended_witness :
    ((5:ℕ) < 178) ∧ main_s.getD 5 0 < 1.10 :=
  ⟨by norm_num, (nearest_spot_amended (fun _ => ()) (fun _ _ _ => 0)).2.1 5 (by norm_num)⟩

end FxMain

namespace KalmanFx

/-- Witness for `empty_csv_and_empty_input` at a concrete collaborator
instance. -/
theorem empty_csv_and_empty_input_witness :
    read_csv none = [] ∧
    model_kalman_filter
        (⟨fun _ => .ok (), fun s => s, fun s _ => .ok s, fun _ => 0, fun _ => 0⟩ : KFApi Unit)
        [] = (.error "Input FX data is empty", [], false) :=
  ⟨empty_csv_and_empty_input.1,
    empty_csv_and_empty_input.2.2.1 Unit
      ⟨fun _ => .ok (), fun s => s, fun s _ => .ok s, fun _ => 0, fun _ => 0⟩⟩

end KalmanFx
